import Mathlib

/-!
Verification of the checkpoint-architecture-inference and embedding-extraction
core of `src/protx/models/student/model.py` (class `ProtX`).

The Python code is shallowly embedded as executable Lean definitions:

* a checkpoint parameter table is a `List (String × List ℕ)` of
  (parameter name, tensor shape) entries, in the table's iteration order
  (only shapes matter to `inspect_checkpoint_architecture`);
* tensor contents used by the extraction routine are exact rationals `ℚ`
  (the float literal `1e-9` becomes the exact rational `1 / 10 ^ 9`);
* Python control flow (`for` with `break`, `try`/`except`, slicing with a
  possibly negative bound, `str.split`, `int(...)`, substring tests) is
  translated into structural recursion, `Except`, and total functions below.
-/

/-! ### Character-list string primitives

The Python source uses `in` (substring test), `str.split('.')`, `str.lower()`
and `int(...)`. These are modelled over `List Char` so that every concrete
evaluation reduces in the kernel. -/

/-- Tests whether the first list is a leading segment of the second,
modelling the inner step of Python's substring operator. -/
def leadsChars : List Char → List Char → Bool
  | [], _ => true
  | _ :: _, [] => false
  | n :: ns, h :: hs => n == h && leadsChars ns hs

/-- Python's substring operator `needle in hay`. -/
def containsSub (hay needle : List Char) : Bool :=
  match hay with
  | [] => leadsChars needle []
  | c :: t => leadsChars needle (c :: t) || containsSub t needle

/-- Python's `str.split('.')`: split at every dot, keeping empty pieces. -/
def splitDot : List Char → List (List Char)
  | [] => [[]]
  | c :: cs =>
    if c = '.' then [] :: splitDot cs
    else
      match splitDot cs with
      | p :: ps => (c :: p) :: ps
      | [] => [[c]]

/-- Accumulator pass for decimal digit parsing. -/
def digitsToNatAux : List Char → ℕ → Option ℕ
  | [], acc => some acc
  | c :: cs, acc =>
    if c.isDigit then digitsToNatAux cs (10 * acc + (c.toNat - 48)) else none

/-- Parses a nonempty all-digit character list as a natural number. -/
def digitsToNat : List Char → Option ℕ
  | [] => none
  | c :: cs => digitsToNatAux (c :: cs) 0

/-- Python's `int(s)` on a decimal string: surrounding whitespace is stripped,
an optional single sign is allowed, then at least one ASCII digit.
(Digit-group underscores, accepted by CPython, are not modelled; no key in
any claim uses them.)  Note that a leading `-` yields a negative value. -/
def pyInt (cs : List Char) : Option Int :=
  let t := ((cs.dropWhile Char.isWhitespace).reverse.dropWhile
      Char.isWhitespace).reverse
  match t with
  | '-' :: rest => (digitsToNat rest).map (fun n => -(n : Int))
  | '+' :: rest => (digitsToNat rest).map (fun n => (n : Int))
  | _ => (digitsToNat t).map (fun n => (n : Int))

/-! ### The name fragments the Python code matches on -/

/-- Fragment `embeddings.tok_embeddings.weight`. -/
def tokEmbSub : List Char := "embeddings.tok_embeddings.weight".data

/-- Fragment `model.layers.0.attn.Wo.weight`. -/
def woSub : List Char := "model.layers.0.attn.Wo.weight".data

/-- Fragment `model.layers.0.mlp.Wi.weight`. -/
def wiSub : List Char := "model.layers.0.mlp.Wi.weight".data

/-- Fragment `model.layers.0.attn.Wqkv.weight`. -/
def wqkvSub : List Char := "model.layers.0.attn.Wqkv.weight".data

/-- Fragment `model.layers.` used by the layer-counting scan. -/
def modelLayersSub : List Char := "model.layers.".data

/-- Path piece `layers`. -/
def layersPiece : List Char := "layers".data

/-- Fragment `query` (matched against the lower-cased key). -/
def querySub : List Char := "query".data

/-- Fragment `weight` (matched against the original key). -/
def weightSub : List Char := "weight".data

/-- Fragment `layers.0` (matched against the original key). -/
def layersZeroSub : List Char := "layers.0".data

/-! ### `ProtX.inspect_checkpoint_architecture` -/

/-- A checkpoint parameter table: (name, tensor shape) entries in iteration
order.  Only shapes are inspected by the architecture-inference code. -/
abbrev ParamTable := List (String × List ℕ)

/-- The ways `inspect_checkpoint_architecture` can terminate abnormally:
the three `ValueError`s it raises itself, plus the uncaught `ValueError`
Python raises when a tuple unpacking such as
`vocab_size, embed_dim = tensor.shape` meets a tensor that is not 2-D. -/
inductive InspectErr : Type where
  | embedUndetermined : InspectErr
  | layersUndetermined : InspectErr
  | headsUndetermined : InspectErr
  | unpackFail : InspectErr
deriving DecidableEq, Repr

/-- First loop of `inspect_checkpoint_architecture`: scan the table in order
and take the first entry matching one of the three `embed_dim` rules, the
rules being tried in the listed order on each entry (`if`/`elif`/`elif`).
Returns `none` when no entry matches any rule. -/
def findEmbedDim : ParamTable → Except InspectErr (Option ℕ)
  | [] => .ok none
  | (key, shape) :: rest =>
    if containsSub key.data tokEmbSub then
      match shape with
      | [_, e] => .ok (some e)
      | _ => .error .unpackFail
    else if containsSub key.data woSub then
      match shape with
      | [e, _] => .ok (some e)
      | _ => .error .unpackFail
    else if containsSub key.data wiSub then
      match shape with
      | [_, e] => .ok (some e)
      | _ => .error .unpackFail
    else findEmbedDim rest

/-- The inner loop of the layer-counting scan: for every piece equal to
`layers` that has a following piece, try `int(...)` on the following piece;
parse failures are skipped (`except ValueError: continue`). -/
def collectLayerIdx : List (List Char) → List Int
  | a :: b :: rest =>
    (if a = layersPiece then
      match pyInt b with
      | some n => [n]
      | none => []
    else []) ++ collectLayerIdx (b :: rest)
  | _ => []

/-- Layer indices contributed by one key: keys containing `model.layers.`
are split at dots and scanned for `layers`-indexed pieces. -/
def layerIndicesOfKey (key : String) : List Int :=
  if containsSub key.data modelLayersSub then collectLayerIdx (splitDot key.data)
  else []

/-- `num_layers`: the number of distinct layer indices seen across all keys
(the cardinality of the Python `set`). -/
def layerCount (table : ParamTable) : ℕ :=
  ((table.map Prod.fst).flatMap layerIndicesOfKey).dedup.length

/-- First candidate head count in the ordered list dividing `e` evenly. -/
def firstHeadsDividing : List ℕ → ℕ → Option ℕ
  | [], _ => none
  | c :: cs, e => if e % c = 0 then some c else firstHeadsDividing cs e

/-- The head-count cascade applied once the `Wqkv` shape check has passed:
`% 64`, then `% 32`, then `% 128`, then the candidate list
`[8, 12, 16, 20, 24, 32]`.  `none` when no rule fires. -/
def headsFromEmbed (e : ℕ) : Option ℕ :=
  if e % 64 = 0 then some (e / 64)
  else if e % 32 = 0 then some (e / 32)
  else if e % 128 = 0 then some (e / 128)
  else firstHeadsDividing [8, 12, 16, 20, 24, 32] e

/-- Primary `num_heads` loop: stop at the first key containing
`model.layers.0.attn.Wqkv.weight`; unpack its 2-D shape (a non-2-D shape
raises), and only when the first dimension equals `3 * embed_dim` run the
cascade — otherwise `num_heads` silently stays undetermined. -/
def findHeadsPrimary (e : ℕ) : ParamTable → Except InspectErr (Option ℕ)
  | [] => .ok none
  | (key, shape) :: rest =>
    if containsSub key.data wqkvSub then
      match shape with
      | [q, _] => .ok (if q = 3 * e then headsFromEmbed e else none)
      | _ => .error .unpackFail
    else findHeadsPrimary e rest

/-- First head dimension in `[32, 64, 128]` dividing `outD`, yielding
`outD / head_dim`. -/
def firstHeadDim : List ℕ → ℕ → Option ℕ
  | [], _ => none
  | d :: ds, outD => if outD % d = 0 then some (outD / d) else firstHeadDim ds outD

/-- Fallback `num_heads` loop: stop at the first key whose lower-cased name
contains `query` and whose original name contains `weight` and `layers.0`;
it must be 2-D with second dimension `embed_dim`, and then the first head
dimension in `[32, 64, 128]` dividing the first dimension decides. -/
def findHeadsFallback (e : ℕ) : ParamTable → Option ℕ
  | [] => none
  | (key, shape) :: rest =>
    if containsSub (key.data.map Char.toLower) querySub
        && containsSub key.data weightSub
        && containsSub key.data layersZeroSub then
      if shape.length = 2 then
        match shape with
        | [outD, inD] => if inD = e then firstHeadDim [32, 64, 128] outD else none
        | _ => none
      else none
    else findHeadsFallback e rest

/-- `ProtX.inspect_checkpoint_architecture`, given the loaded parameter
table: determine `embed_dim`, then `num_layers`, then `num_heads`
(primary `Wqkv` stage, then `query`-key fallback), failing with the
matching `ValueError` whenever a stage stays undetermined. -/
def inspect_checkpoint_architecture (table : ParamTable) :
    Except InspectErr (ℕ × ℕ × ℕ) :=
  match findEmbedDim table with
  | .error err => .error err
  | .ok none => .error .embedUndetermined
  | .ok (some e) =>
    if layerCount table = 0 then .error .layersUndetermined
    else
      match findHeadsPrimary e table with
      | .error err => .error err
      | .ok (some hh) => .ok (e, layerCount table, hh)
      | .ok none =>
        match findHeadsFallback e table with
        | some hh => .ok (e, layerCount table, hh)
        | none => .error .headsUndetermined

/-! ### `ProtX.load_and_generate_embeddings`

The extraction entry point is embedded with its external collaborators
(safetensors loading, encoder construction, non-strict weight loading,
tokenizer plus encoder forward pass) abstracted exactly at the interfaces
the Python code uses.  Tensor values are exact rationals. -/

/-- The float literal `1e-9` used as the clamp floor, as an exact rational. -/
def eps : ℚ := 1 / 1000000000

/-- Componentwise vector addition (`torch.sum` accumulates positions). -/
def addVec (a b : List ℚ) : List ℚ := List.zipWith (· + ·) a b

/-- One row of `masked_embeddings = embeddings_no_eos * mask_expanded`
(lines 165-169): `embeddings[:, :-1, :]` and `attention_mask[:, :-1]` drop
the last position column (`dropLast` per row — the removed column index is
the common padded length minus one, fixed for the whole batch), and the
mask value is broadcast across the hidden width and multiplied in. -/
def maskedEmb (h : List (List ℚ)) (m : List ℕ) : List (List ℚ) :=
  List.zipWith (fun v mv => v.map (fun x => x * (mv : ℚ))) h.dropLast m.dropLast

/-- One row of `summed = torch.sum(masked_embeddings, dim=1)` (line 170). -/
def summedRow (d : ℕ) (h : List (List ℚ)) (m : List ℕ) : List ℚ :=
  (maskedEmb h m).foldl addVec (List.replicate d 0)

/-- One row of `summed_mask = torch.clamp(mask_expanded.sum(dim=1), min=1e-9)`
(line 171): the broadcast mask sums to the same scalar in every component,
so it is a single scalar here. -/
def clampedMaskSum (m : List ℕ) : ℚ :=
  max ((m.dropLast.map (fun mv => (Nat.cast mv : ℚ))).sum) eps

/-- Pooled-mode extraction for one batch row, mirroring lines 162-172 of the
source: `mean_pooled = summed / summed_mask`. -/
def pooledRow (d : ℕ) (h : List (List ℚ)) (m : List ℕ) : List ℚ :=
  (summedRow d h m).map (fun x => x / clampedMaskSum m)

/-- Pooled-mode extraction over a batch: torch applies the operations of
`pooledRow` to every row of the `[batch, seq_len, embed_dim]` tensor. -/
def meanPooledBatch (d : ℕ) (hid : List (List (List ℚ))) (mask : List (List ℕ)) :
    List (List ℚ) :=
  (hid.zip mask).map (fun p => pooledRow d p.1 p.2)

/-- Python slicing `xs[:n]` with a possibly negative bound: a negative `n`
counts from the end (`xs[:-k]` keeps all but the last `k` elements). -/
def pySliceTo {α : Type} (xs : List α) (n : Int) : List α :=
  if 0 ≤ n then xs.take n.toNat
  else xs.take (xs.length - (-n).toNat)

/-- Per-token extraction for one batch row, mirroring lines 179-182 of the
source: `actual_length = seq_mask.sum().item() - 1` (an `int`, so it can be
negative on an all-zero mask) and `seq_embeddings[:actual_length]`. -/
def perTokenRow (h : List (List ℚ)) (m : List ℕ) : List (List ℚ) :=
  pySliceTo h ((m.sum : Int) - 1)

/-- One yielded result: a pooled vector or a per-token matrix. -/
abbrev EmbRes := List ℚ ⊕ List (List ℚ)

/-- The per-batch yield loop: `zip(batch_sequences, mean_pooled)` in pooled
mode, `zip(batch_sequences, embeddings, attention_mask)` in per-token mode
(Python `zip` truncates at the shortest argument, as `List.zip` does). -/
def extractBatch (pooled : Bool) (d : ℕ) (bseqs : List String)
    (hid : List (List (List ℚ))) (mask : List (List ℕ)) :
    List (String × EmbRes) :=
  if pooled then
    (bseqs.zip (meanPooledBatch d hid mask)).map (fun p => (p.1, Sum.inl p.2))
  else
    (bseqs.zip (hid.zip mask)).map
      (fun p => (p.1, Sum.inr (perTokenRow p.2.1 p.2.2)))

/-- The batching loop `for i in range(0, len(sequences), batch_size)` with
`sequences[i:i + batch_size]`, where `run` stands for tokenizing a batch and
running the encoder forward pass, returning the hidden states
`[batch, seq_len, embed_dim]` and the attention mask `[batch, seq_len]`.
(Python's `range` raises on step 0; the `bs = 0` branch here is never the
subject of a theorem.) -/
def genLoop (run : List String → List (List (List ℚ)) × List (List ℕ))
    (pooled : Bool) (d bs : ℕ) (seqs : List String) : List (String × EmbRes) :=
  if h : bs = 0 ∨ seqs = [] then []
  else
    let b := seqs.take bs
    extractBatch pooled d b (run b).1 (run b).2 ++
      genLoop run pooled d bs (seqs.drop bs)
termination_by seqs.length
decreasing_by
  have h1 : ¬bs = 0 := fun hb => h (Or.inl hb)
  have h2 : ¬seqs = [] := fun hs => h (Or.inr hs)
  have : 0 < seqs.length := List.length_pos.mpr h2
  simp only [List.length_drop]
  omega

/-- Failure of `safetensors.torch.load_file` (missing or corrupt file). -/
inductive LoadErr : Type where
  | checkpointLoad : LoadErr
deriving DecidableEq

/-- Failure of encoder construction (`ProtX(...)`, line 110): the spec's
`EncoderConstructionError`. -/
inductive ConstructErr : Type where
  | encoderConstruction : ConstructErr
deriving DecidableEq

/-- `inspect_checkpoint_architecture` as called on a checkpoint path: the
inner `load_file` failure is re-raised as `FileNotFoundError` (modelled on
the left), and any architecture-inference failure appears on the right. -/
def inspectPath (ckpt : Except LoadErr ParamTable) :
    Except (LoadErr ⊕ InspectErr) (ℕ × ℕ × ℕ) :=
  match ckpt with
  | .error err => .error (.inl err)
  | .ok table => (inspect_checkpoint_architecture table).mapError .inr

/-- `ProtX.load_and_generate_embeddings`.  `ckpt` is the result of loading
the checkpoint file at the given path (the same both times the path is
read), `construct` builds the encoder from the inferred
`(embed_dim, num_layers, num_heads)`, `loadWeights` performs the non-strict
`load_state_dict`, and `run` tokenizes a batch and runs the forward pass.

Control flow of lines 101-182: the architecture-inference call is wrapped in
`try`/`except` (a failure prints and returns, producing no items); encoder
construction is *not* wrapped — an exception there escapes the generator, so
it surfaces as `Except.error`; the second checkpoint read and the weight
load are wrapped (failure prints and returns); then the batch loop yields. -/
def load_and_generate_embeddings {Enc : Type}
    (ckpt : Except LoadErr ParamTable)
    (construct : ℕ × ℕ × ℕ → Except ConstructErr Enc)
    (loadWeights : Enc → ParamTable → Except LoadErr Enc)
    (run : Enc → List String → List (List (List ℚ)) × List (List ℕ))
    (pooled : Bool) (d bs : ℕ) (seqs : List String) :
    Except ConstructErr (List (String × EmbRes)) :=
  match inspectPath ckpt with
  | .error _ => .ok []
  | .ok arch =>
    match construct arch with
    | .error ce => .error ce
    | .ok enc =>
      match ckpt.bind (fun table => loadWeights enc table) with
      | .error _ => .ok []
      | .ok enc2 => .ok (genLoop (run enc2) pooled d bs seqs)

/-! ### Specification-side formulations

These restate what the spec says in a form independent of the loop/fold
structure of the translated code, so that the claim theorems genuinely
compare two formulations. -/

/-- The `num_heads` selection rule exactly as the spec words it: first
satisfied divisor rule among `% 64`, `% 32`, `% 128`, else the first value
of the ordered candidate list that evenly divides `embed_dim`, phrased with
divisibility and `filter`/`head?` rather than the code's recursion. -/
def specHeadsRule (e : ℕ) : Option ℕ :=
  if 64 ∣ e then some (e / 64)
  else if 32 ∣ e then some (e / 32)
  else if 128 ∣ e then some (e / 128)
  else (([8, 12, 16, 20, 24, 32] : List ℕ).filter (fun c => decide (c ∣ e))).head?

/-- The first-divisor search of the code agrees with `filter`-then-first. -/
theorem firstHeadsDividing_eq_filter (l : List ℕ) (e : ℕ) :
    firstHeadsDividing l e = (l.filter (fun c => decide (c ∣ e))).head? := by
  induction l with
  | nil => rfl
  | cons c cs ih =>
    by_cases hc : e % c = 0
    · have : c ∣ e := (Nat.dvd_iff_mod_eq_zero).mpr hc
      simp [firstHeadsDividing, List.filter, hc, this]
    · have : ¬c ∣ e := fun hdvd => hc ((Nat.dvd_iff_mod_eq_zero).mp hdvd)
      simp [firstHeadsDividing, List.filter, hc, this, ih]

/-- The code's head cascade computes the spec's rule. -/
theorem headsFromEmbed_eq_spec (e : ℕ) : headsFromEmbed e = specHeadsRule e := by
  unfold headsFromEmbed specHeadsRule
  rw [firstHeadsDividing_eq_filter]
  by_cases h64 : e % 64 = 0 <;> by_cases h32 : e % 32 = 0 <;>
    by_cases h128 : e % 128 = 0 <;>
    simp_all [Nat.dvd_iff_mod_eq_zero]

/-- Entries that match none of the three `embed_dim` rules are skipped. -/
theorem findEmbedDim_skip (pre rest : ParamTable)
    (hpre : ∀ p ∈ pre, containsSub p.1.data tokEmbSub = false ∧
      containsSub p.1.data woSub = false ∧ containsSub p.1.data wiSub = false) :
    findEmbedDim (pre ++ rest) = findEmbedDim rest := by
  induction pre with
  | nil => rfl
  | cons a t ih =>
    obtain ⟨h1, h2, h3⟩ := hpre a (by simp)
    obtain ⟨key, shape⟩ := a
    simp only [List.cons_append, findEmbedDim, h1, h2, h3, Bool.false_eq_true,
      if_false]
    exact ih (fun p hp => hpre p (by simp [hp]))

/-- Entries whose name does not contain the `Wqkv` fragment are skipped by
the primary `num_heads` loop. -/
theorem findHeadsPrimary_skip (e : ℕ) (pre rest : ParamTable)
    (hpre : ∀ p ∈ pre, containsSub p.1.data wqkvSub = false) :
    findHeadsPrimary e (pre ++ rest) = findHeadsPrimary e rest := by
  induction pre with
  | nil => rfl
  | cons a t ih =>
    have h1 := hpre a (by simp)
    obtain ⟨key, shape⟩ := a
    simp only [List.cons_append, findHeadsPrimary, h1, Bool.false_eq_true,
      if_false]
    exact ih (fun p hp => hpre p (by simp [hp]))

/-! ### Claim theorems -/

/-- C1: whenever the first `Wqkv`-matching key of the table has 2-D shape
`[3 * embed_dim, model_dim]` (with `embed_dim` the value the first scan
already determined, and the layer scan nonempty), `num_heads` is chosen by
the spec's cascade: `/64` if `64` divides, else `/32`, else `/128`, else the
first of `[8, 12, 16, 20, 24, 32]` dividing evenly; in particular
`embed_dim = 768` with `Wqkv` shape `[2304, 768]` gives `num_heads = 12`,
and `embed_dim = 100` gives `num_heads = 20`. -/
theorem c1_wqkv_heads_cascade :
    (∀ (pre suffix : ParamTable) (k : String) (e mdim hh : ℕ),
      (∀ p ∈ pre, containsSub p.1.data wqkvSub = false) →
      containsSub k.data wqkvSub = true →
      findEmbedDim (pre ++ (k, [3 * e, mdim]) :: suffix) = .ok (some e) →
      layerCount (pre ++ (k, [3 * e, mdim]) :: suffix) ≠ 0 →
      specHeadsRule e = some hh →
      inspect_checkpoint_architecture (pre ++ (k, [3 * e, mdim]) :: suffix) =
        .ok (e, layerCount (pre ++ (k, [3 * e, mdim]) :: suffix), hh)) ∧
    inspect_checkpoint_architecture
      [("embeddings.tok_embeddings.weight", [33, 768]),
       ("model.layers.0.attn.Wqkv.weight", [2304, 768])] = .ok (768, 1, 12) ∧
    inspect_checkpoint_architecture
      [("embeddings.tok_embeddings.weight", [33, 100]),
       ("model.layers.0.attn.Wqkv.weight", [300, 100])] = .ok (100, 1, 20) := by
  refine ⟨?_, rfl, rfl⟩
  intro pre suffix k e mdim hh hpre hk hembed hlayers hrule
  have hprim : findHeadsPrimary e (pre ++ (k, [3 * e, mdim]) :: suffix) =
      .ok (some hh) := by
    rw [findHeadsPrimary_skip e pre _ hpre]
    simp only [findHeadsPrimary, hk, if_true, if_pos rfl]
    rw [headsFromEmbed_eq_spec, hrule]
  unfold inspect_checkpoint_architecture
  rw [hembed]
  simp only [hprim, if_neg hlayers]

/-- Witness for C1: a concrete table whose first `Wqkv` key follows a
non-matching entry; `embed_dim = 96` is not divisible by 64 but is by 32,
so the cascade yields `96 / 32 = 3`. -/
theorem c1_wqkv_heads_cascade_witness :
    inspect_checkpoint_architecture
      [("embeddings.tok_embeddings.weight", [10, 96]),
       ("model.layers.0.attn.Wqkv.weight", [288, 96])] = .ok (96, 1, 3) := by
  have h := c1_wqkv_heads_cascade.1
    [("embeddings.tok_embeddings.weight", [10, 96])] [] "model.layers.0.attn.Wqkv.weight"
    96 96 3 (by decide) (by decide) rfl (by decide) (by decide)
  exact h

/-- Inversion: a successful inference determines where each scalar came
from — `embed_dim` from the first scan, `num_layers` as `layerCount`,
which is then nonzero. -/
theorem inspect_ok_inv (table : ParamTable) (e l hh : ℕ)
    (hins : inspect_checkpoint_architecture table = .ok (e, l, hh)) :
    findEmbedDim table = .ok (some e) ∧ l = layerCount table ∧
      layerCount table ≠ 0 := by
  unfold inspect_checkpoint_architecture at hins
  cases hemb : findEmbedDim table with
  | error err => rw [hemb] at hins; simp at hins
  | ok eo =>
    rw [hemb] at hins
    cases eo with
    | none => simp at hins
    | some e0 =>
      by_cases hl : layerCount table = 0
      · simp [hl] at hins
      · simp only [if_neg hl] at hins
        cases hp : findHeadsPrimary e0 table with
        | error err => rw [hp] at hins; simp at hins
        | ok fs =>
          rw [hp] at hins
          cases fs with
          | some hh0 =>
            simp only [Except.ok.injEq, Prod.mk.injEq] at hins
            obtain ⟨he, hl2, _⟩ := hins
            subst he; subst hl2
            exact ⟨rfl, rfl, hl⟩
          | none =>
            cases hf : findHeadsFallback e0 table with
            | none => rw [hf] at hins; simp at hins
            | some hh2 =>
              rw [hf] at hins
              simp only [Except.ok.injEq, Prod.mk.injEq] at hins
              obtain ⟨he, hl2, _⟩ := hins
              subst he; subst hl2
              exact ⟨rfl, rfl, hl⟩

/-- C9: the primary `num_heads` stage looks only at the first key containing
`model.layers.0.attn.Wqkv.weight`; when that key's first dimension is not
`3 * embed_dim`, or no divisor rule fires for `embed_dim`, the stage returns
nothing — regardless of any later `Wqkv`-matching keys — and
`inspect_checkpoint_architecture` then decides `num_heads` solely by the
`query`-key fallback stage. -/
theorem c9_first_wqkv_key_only :
    (∀ (pre suffix : ParamTable) (k : String) (e q mdim : ℕ),
      (∀ p ∈ pre, containsSub p.1.data wqkvSub = false) →
      containsSub k.data wqkvSub = true →
      (q ≠ 3 * e ∨ headsFromEmbed e = none) →
      findHeadsPrimary e (pre ++ (k, [q, mdim]) :: suffix) = .ok none) ∧
    (∀ (table : ParamTable) (e : ℕ),
      findEmbedDim table = .ok (some e) →
      layerCount table ≠ 0 →
      findHeadsPrimary e table = .ok none →
      inspect_checkpoint_architecture table =
        (match findHeadsFallback e table with
          | some hh => .ok (e, layerCount table, hh)
          | none => .error .headsUndetermined)) := by
  constructor
  · intro pre suffix k e q mdim hpre hk hd
    rw [findHeadsPrimary_skip e pre _ hpre]
    simp only [findHeadsPrimary, hk, if_true]
    by_cases hq : q = 3 * e
    · rcases hd with hq' | hnone
      · exact absurd hq hq'
      · rw [if_pos hq, hnone]
    · rw [if_neg hq]
  · intro table e hemb hl hprim
    unfold inspect_checkpoint_architecture
    rw [hemb]
    simp only [if_neg hl, hprim]

/-- Witness for C9: a first `Wqkv` key of shape `[5, 64]` (5 ≠ 3·64) stops
the primary stage even though a later `Wqkv` key has a conforming shape, and
on a table whose only usable head evidence is a `query` key the result comes
from the fallback (`128 / 32 = 4` heads). -/
theorem c9_first_wqkv_key_only_witness :
    findHeadsPrimary 64
      [("x", [5]),
       ("model.layers.0.attn.Wqkv.weight", [5, 64]),
       ("y.model.layers.0.attn.Wqkv.weight", [192, 64])] = .ok none ∧
    inspect_checkpoint_architecture
      [("embeddings.tok_embeddings.weight", [10, 64]),
       ("model.layers.0.attn.Wqkv.weight", [5, 64]),
       ("model.layers.0.attn.query.weight", [128, 64])] = .ok (64, 1, 4) := by
  constructor
  · exact c9_first_wqkv_key_only.1 [("x", [5])]
      [("y.model.layers.0.attn.Wqkv.weight", [192, 64])]
      "model.layers.0.attn.Wqkv.weight" 64 5 64
      (by decide) (by decide) (Or.inl (by decide))
  · exact (c9_first_wqkv_key_only.2
      [("embeddings.tok_embeddings.weight", [10, 64]),
       ("model.layers.0.attn.Wqkv.weight", [5, 64]),
       ("model.layers.0.attn.query.weight", [128, 64])] 64
      rfl (by decide) rfl).trans rfl

/-- C2 counterexample: the claim says the `tok_embeddings` rule wins
regardless of where other rule-matching keys occur in iteration order, but
the first scan stops at the *first* entry matching *any* rule: here a
`model.layers.0.attn.Wo.weight` key of shape `[64, 64]` precedes a
`embeddings.tok_embeddings.weight` key of shape `[20, 32]`, and the
inferred `embed_dim` is `64`, not `32`. -/
theorem c2_embed_order_counterexample :
    containsSub ("embeddings.tok_embeddings.weight").data tokEmbSub = true ∧
    inspect_checkpoint_architecture
      [("model.layers.0.attn.Wo.weight", [64, 64]),
       ("embeddings.tok_embeddings.weight", [20, 32]),
       ("model.layers.0.attn.Wqkv.weight", [192, 64])] = .ok (64, 1, 1) ∧
    (64 : ℕ) ≠ 32 :=
  ⟨rfl, rfl, by decide⟩

/-- C2 (amended): for every table whose *first* entry matching any
`embed_dim` rule is a `tok_embeddings` key of shape `[V, E]`, the inferred
`embed_dim` is `E` — later rule-matching keys of any kind are irrelevant,
but an earlier rule-matching entry takes precedence. -/
theorem c2_embed_first_match :
    (∀ (pre rest : ParamTable) (k : String) (V E : ℕ),
      (∀ p ∈ pre, containsSub p.1.data tokEmbSub = false ∧
        containsSub p.1.data woSub = false ∧ containsSub p.1.data wiSub = false) →
      containsSub k.data tokEmbSub = true →
      findEmbedDim (pre ++ (k, [V, E]) :: rest) = .ok (some E)) ∧
    (∀ (table : ParamTable) (E e l hh : ℕ),
      findEmbedDim table = .ok (some E) →
      inspect_checkpoint_architecture table = .ok (e, l, hh) →
      e = E) := by
  constructor
  · intro pre rest k V E hpre hk
    rw [findEmbedDim_skip pre _ hpre]
    simp only [findEmbedDim, hk, if_true]
  · intro table E e l hh hemb hins
    have h := (inspect_ok_inv table e l hh hins).1
    rw [hemb] at h
    exact (Option.some.injEq _ _ ▸ (Except.ok.injEq _ _ ▸ h)).symm

/-- Witness for C2 (amended): the `tok_embeddings` key follows two entries
matching no rule and is itself followed by a `Wo` key; `embed_dim` is its
second dimension `48`. -/
theorem c2_embed_first_match_witness :
    findEmbedDim
      [("proj.weight", [1024, 48]),
       ("model.final_norm.weight", [48]),
       ("encoder.embeddings.tok_embeddings.weight", [20, 48]),
       ("model.layers.0.attn.Wo.weight", [48, 48])] = .ok (some 48) ∧
    (48 : ℕ) = 48 := by
  constructor
  · exact c2_embed_first_match.1
      [("proj.weight", [1024, 48]), ("model.final_norm.weight", [48])]
      [("model.layers.0.attn.Wo.weight", [48, 48])]
      "encoder.embeddings.tok_embeddings.weight" 20 48
      (by decide) (by decide)
  · exact c2_embed_first_match.2
      [("encoder.embeddings.tok_embeddings.weight", [20, 48]),
       ("model.layers.0.attn.Wqkv.weight", [144, 48])] 48 48 1 8 rfl rfl

/-- C3 counterexample: Python's `int(...)` also parses *negative* index
pieces, so the key `model.layers.-1.attn.w` contributes the index `-1` to
the layer set: the code returns `num_layers = 2` although the set of
distinct *non-negative* indices found is `{0}`, of cardinality 1 — on this
table the claim's value would be 1 (and its "empty index set" error case
likewise differs on tables whose only indices are negative). -/
theorem c3_negative_index_counterexample :
    inspect_checkpoint_architecture
      [("embeddings.tok_embeddings.weight", [20, 64]),
       ("model.layers.-1.attn.w", [1]),
       ("model.layers.0.attn.Wqkv.weight", [192, 64])] = .ok (64, 2, 1) ∧
    (([("embeddings.tok_embeddings.weight", [20, 64]),
       ("model.layers.-1.attn.w", [1]),
       ("model.layers.0.attn.Wqkv.weight", [192, 64])].map
        Prod.fst).flatMap layerIndicesOfKey) = [-1, 0] ∧
    (([-1, 0] : List Int).filter (fun i => decide (0 ≤ i))).dedup.length = 1 ∧
    (2 : ℕ) ≠ 1 :=
  ⟨rfl, rfl, by decide, by decide⟩

/-- C3 (amended): `num_layers` is the cardinality of the set of distinct
*integer* indices (Python's `int(...)` accepts a sign, so negative pieces
count too) found after a `layers` path piece in keys containing
`model.layers.`; it is the set's cardinality, not `max + 1` (indices
`{0,1,2,3}` give 4, `{0,2}` give 2), malformed pieces are skipped, and an
empty index set fails with the `num_layers`-undetermined error. -/
theorem c3_layer_cardinality :
    (∀ table : ParamTable, layerCount table =
      ((table.map Prod.fst).flatMap layerIndicesOfKey).toFinset.card) ∧
    (∀ (table : ParamTable) (e l hh : ℕ),
      inspect_checkpoint_architecture table = .ok (e, l, hh) →
      l = layerCount table ∧ layerCount table ≠ 0) ∧
    (∀ (table : ParamTable) (e : ℕ),
      findEmbedDim table = .ok (some e) →
      layerCount table = 0 →
      inspect_checkpoint_architecture table = .error .layersUndetermined) ∧
    inspect_checkpoint_architecture
      [("embeddings.tok_embeddings.weight", [10, 64]),
       ("model.layers.0.attn.Wqkv.weight", [192, 64]),
       ("model.layers.1.attn.Wo.bias", [64]),
       ("model.layers.2.attn.Wo.bias", [64]),
       ("model.layers.3.attn.Wo.bias", [64])] = .ok (64, 4, 1) ∧
    inspect_checkpoint_architecture
      [("embeddings.tok_embeddings.weight", [10, 64]),
       ("model.layers.0.attn.Wqkv.weight", [192, 64]),
       ("model.layers.2.attn.Wo.bias", [64])] = .ok (64, 2, 1) := by
  refine ⟨?_, ?_, ?_, rfl, rfl⟩
  · intro table
    exact (List.card_toFinset _).symm
  · intro table e l hh hins
    exact (inspect_ok_inv table e l hh hins).2
  · intro table e hemb hl0
    unfold inspect_checkpoint_architecture
    rw [hemb]
    simp only [if_pos hl0]

/-- Witness for C3 (amended): on a two-index table the returned
`num_layers` is the set cardinality 2, and a table determining `embed_dim`
but containing no layer-indexed key fails with the layers error. -/
theorem c3_layer_cardinality_witness :
    ((2 : ℕ) = layerCount
      [("embeddings.tok_embeddings.weight", [10, 64]),
       ("model.layers.0.attn.Wqkv.weight", [192, 64]),
       ("model.layers.5.attn.Wo.bias", [64])] ∧
      layerCount
        [("embeddings.tok_embeddings.weight", [10, 64]),
         ("model.layers.0.attn.Wqkv.weight", [192, 64]),
         ("model.layers.5.attn.Wo.bias", [64])] ≠ 0) ∧
    inspect_checkpoint_architecture
      [("embeddings.tok_embeddings.weight", [10, 64])] =
      .error .layersUndetermined := by
  constructor
  · exact (c3_layer_cardinality.2.1
      [("embeddings.tok_embeddings.weight", [10, 64]),
       ("model.layers.0.attn.Wqkv.weight", [192, 64]),
       ("model.layers.5.attn.Wo.bias", [64])] 64 2 1 rfl)
  · exact c3_layer_cardinality.2.2.1
      [("embeddings.tok_embeddings.weight", [10, 64])] 64 rfl rfl

/-- C7: when the first scan has fixed `embed_dim` and the layer scan is
nonempty but both `num_heads` stages yield nothing — the primary `Wqkv`
stage returns no head count and the `query`-key fallback finds none —
inference fails with the `num_heads`-undetermined error, and
`load_and_generate_embeddings` on such a checkpoint yields zero results
(for every construction, weight-loading and forward-pass collaborator). -/
theorem c7_heads_undetermined_yields_nothing :
    (∀ (table : ParamTable) (e : ℕ),
      findEmbedDim table = .ok (some e) →
      layerCount table ≠ 0 →
      findHeadsPrimary e table = .ok none →
      findHeadsFallback e table = none →
      inspect_checkpoint_architecture table = .error .headsUndetermined) ∧
    (∀ (table : ParamTable) (err : InspectErr) {Enc : Type}
      (construct : ℕ × ℕ × ℕ → Except ConstructErr Enc)
      (loadWeights : Enc → ParamTable → Except LoadErr Enc)
      (run : Enc → List String → List (List (List ℚ)) × List (List ℕ))
      (pooled : Bool) (d bs : ℕ) (seqs : List String),
      inspect_checkpoint_architecture table = .error err →
      load_and_generate_embeddings (Except.ok table) construct loadWeights run
        pooled d bs seqs = .ok []) := by
  constructor
  · intro table e hemb hl hprim hfall
    unfold inspect_checkpoint_architecture
    rw [hemb]
    simp only [if_neg hl, hprim, hfall]
  · intro table err Enc construct loadWeights run pooled d bs seqs hins
    have hp : inspectPath (Except.ok table) = .error (.inr err) := by
      have hstep : inspectPath (Except.ok table) =
          Except.mapError Sum.inr (inspect_checkpoint_architecture table) := rfl
      rw [hstep, hins]
      rfl
    unfold load_and_generate_embeddings
    rw [hp]

/-- Witness for C7: a checkpoint with neither a `Wqkv` key nor any
`query`-named layer-0 key fails on `num_heads`, and the extraction
entry point on it yields the empty result list. -/
theorem c7_heads_undetermined_yields_nothing_witness :
    inspect_checkpoint_architecture
      [("embeddings.tok_embeddings.weight", [20, 64]),
       ("model.layers.0.mlp.Wo.weight", [64, 128])] =
      .error .headsUndetermined ∧
    @load_and_generate_embeddings Unit
      (Except.ok
        [("embeddings.tok_embeddings.weight", [20, 64]),
         ("model.layers.0.mlp.Wo.weight", [64, 128])])
      (fun _ => Except.ok ())
      (fun enc _ => Except.ok enc)
      (fun _ b => (b.map (fun _ => []), b.map (fun _ => [])))
      true 64 32 ["MKWV", "ACDE"] = .ok [] := by
  refine ⟨?_, ?_⟩
  · exact c7_heads_undetermined_yields_nothing.1
      [("embeddings.tok_embeddings.weight", [20, 64]),
       ("model.layers.0.mlp.Wo.weight", [64, 128])] 64 rfl (by decide) rfl rfl
  · exact c7_heads_undetermined_yields_nothing.2
      [("embeddings.tok_embeddings.weight", [20, 64]),
       ("model.layers.0.mlp.Wo.weight", [64, 128])] .headsUndetermined
      (fun _ => Except.ok ()) (fun enc _ => Except.ok enc)
      (fun _ b => (b.map (fun _ => []), b.map (fun _ => [])))
      true 64 32 ["MKWV", "ACDE"] rfl

/-- C6 counterexample: encoder construction (`model = ProtX(...)`, line 110)
sits *between* the two `try` blocks, wrapped in neither, so a construction
failure (the spec's `EncoderConstructionError`) escapes the generator as a
thrown fault instead of being logged and swallowed: with a checkpoint that
passes inference, a failing constructor makes the entry point itself error
rather than produce an empty (early-terminated) sequence. -/
theorem c6_construction_error_counterexample :
    @load_and_generate_embeddings Unit
      (Except.ok
        [("embeddings.tok_embeddings.weight", [33, 768]),
         ("model.layers.0.attn.Wqkv.weight", [2304, 768])])
      (fun _ => Except.error ConstructErr.encoderConstruction)
      (fun enc _ => Except.ok enc)
      (fun _ b => (b.map (fun _ => []), b.map (fun _ => [])))
      true 768 32 ["MKWV"] = .error ConstructErr.encoderConstruction :=
  rfl

/-- C6 (amended): `CheckpointLoadError` (either `load_file` call) and
`ArchitectureInferenceError` are caught at the top level and converted into
a logged message plus early termination (no yielded items, no thrown
fault); an encoder-construction failure, by contrast, is not caught and
propagates to the caller of the generator. -/
theorem c6_error_containment :
    (∀ {Enc : Type} (ckpt : Except LoadErr ParamTable)
      (construct : ℕ × ℕ × ℕ → Except ConstructErr Enc)
      (loadWeights : Enc → ParamTable → Except LoadErr Enc)
      (run : Enc → List String → List (List (List ℚ)) × List (List ℕ))
      (pooled : Bool) (d bs : ℕ) (seqs : List String)
      (err : LoadErr ⊕ InspectErr),
      inspectPath ckpt = .error err →
      load_and_generate_embeddings ckpt construct loadWeights run
        pooled d bs seqs = .ok []) ∧
    (∀ {Enc : Type} (ckpt : Except LoadErr ParamTable)
      (construct : ℕ × ℕ × ℕ → Except ConstructErr Enc)
      (loadWeights : Enc → ParamTable → Except LoadErr Enc)
      (run : Enc → List String → List (List (List ℚ)) × List (List ℕ))
      (pooled : Bool) (d bs : ℕ) (seqs : List String)
      (arch : ℕ × ℕ × ℕ) (enc : Enc),
      inspectPath ckpt = .ok arch →
      construct arch = .ok enc →
      ckpt.bind (fun table => loadWeights enc table) = .error .checkpointLoad →
      load_and_generate_embeddings ckpt construct loadWeights run
        pooled d bs seqs = .ok []) ∧
    (∀ {Enc : Type} (ckpt : Except LoadErr ParamTable)
      (construct : ℕ × ℕ × ℕ → Except ConstructErr Enc)
      (loadWeights : Enc → ParamTable → Except LoadErr Enc)
      (run : Enc → List String → List (List (List ℚ)) × List (List ℕ))
      (pooled : Bool) (d bs : ℕ) (seqs : List String)
      (arch : ℕ × ℕ × ℕ) (ce : ConstructErr),
      inspectPath ckpt = .ok arch →
      construct arch = .error ce →
      load_and_generate_embeddings ckpt construct loadWeights run
        pooled d bs seqs = .error ce) := by
  refine ⟨?_, ?_, ?_⟩
  · intro Enc ckpt construct loadWeights run pooled d bs seqs err hins
    unfold load_and_generate_embeddings
    rw [hins]
  · intro Enc ckpt construct loadWeights run pooled d bs seqs arch enc
      hins hcon hload
    unfold load_and_generate_embeddings
    rw [hins]
    simp only [hcon, hload]
  · intro Enc ckpt construct loadWeights run pooled d bs seqs arch ce hins hcon
    unfold load_and_generate_embeddings
    rw [hins]
    simp only [hcon]

/-- Witness for C6 (amended): a missing checkpoint file and a failing
weight load both end the generator with zero items instead of a fault. -/
theorem c6_error_containment_witness :
    @load_and_generate_embeddings Unit
      (Except.error LoadErr.checkpointLoad)
      (fun _ => Except.ok ())
      (fun enc _ => Except.ok enc)
      (fun _ b => (b.map (fun _ => []), b.map (fun _ => [])))
      true 64 32 ["MKWV"] = .ok [] ∧
    @load_and_generate_embeddings Unit
      (Except.ok
        [("embeddings.tok_embeddings.weight", [33, 768]),
         ("model.layers.0.attn.Wqkv.weight", [2304, 768])])
      (fun _ => Except.ok ())
      (fun _ _ => Except.error LoadErr.checkpointLoad)
      (fun _ b => (b.map (fun _ => []), b.map (fun _ => [])))
      true 768 32 ["MKWV"] = .ok [] := by
  constructor
  · exact c6_error_containment.1 (Except.error LoadErr.checkpointLoad)
      (fun _ => Except.ok ()) (fun enc _ => Except.ok enc)
      (fun _ b => (b.map (fun _ => []), b.map (fun _ => [])))
      true 64 32 ["MKWV"] (Sum.inl LoadErr.checkpointLoad) rfl
  · exact c6_error_containment.2.1
      (Except.ok
        [("embeddings.tok_embeddings.weight", [33, 768]),
         ("model.layers.0.attn.Wqkv.weight", [2304, 768])])
      (fun _ => Except.ok ())
      (fun _ _ => Except.error LoadErr.checkpointLoad)
      (fun _ b => (b.map (fun _ => []), b.map (fun _ => [])))
      true 768 32 ["MKWV"] (768, 1, 12) () rfl rfl rfl

/-! ### Pooled-mode arithmetic lemmas -/

/-- Length of a componentwise sum. -/
theorem addVec_length (a b : List ℚ) : (addVec a b).length = min a.length b.length :=
  List.length_zipWith _ a b

/-- Component access of a componentwise sum of equally long vectors. -/
theorem addVec_getD (a : List ℚ) :
    ∀ (b : List ℚ), a.length = b.length → ∀ i : ℕ,
      (addVec a b).getD i 0 = a.getD i 0 + b.getD i 0 := by
  induction a with
  | nil =>
    intro b hb i
    cases b with
    | nil => simp [addVec]
    | cons y ys => simp at hb
  | cons x xs ih =>
    intro b hb i
    cases b with
    | nil => simp at hb
    | cons y ys =>
      cases i with
      | zero => simp [addVec]
      | succ j =>
        simp only [addVec, List.zipWith_cons_cons, List.getD_cons_succ]
        exact ih ys (by simpa using hb) j

/-- Folding `addVec` over vectors of the accumulator's length keeps it. -/
theorem foldl_addVec_length (vs : List (List ℚ)) :
    ∀ acc : List ℚ, (∀ v ∈ vs, v.length = acc.length) →
      (vs.foldl addVec acc).length = acc.length := by
  induction vs with
  | nil => intro acc _; rfl
  | cons v vs ih =>
    intro acc hv
    have hvlen : v.length = acc.length := hv v (by simp)
    have haccv : (addVec acc v).length = acc.length := by
      rw [addVec_length]; omega
    rw [List.foldl_cons,
      ih (addVec acc v) (fun w hw => by rw [haccv]; exact hv w (by simp [hw]))]
    exact haccv

/-- Components of the fold are componentwise sums. -/
theorem foldl_addVec_getD (vs : List (List ℚ)) :
    ∀ (acc : List ℚ) (i : ℕ), (∀ v ∈ vs, v.length = acc.length) →
      (vs.foldl addVec acc).getD i 0 =
        acc.getD i 0 + (vs.map (fun v => v.getD i 0)).sum := by
  induction vs with
  | nil => intro acc i _; simp
  | cons v vs ih =>
    intro acc i hv
    have hvlen : v.length = acc.length := hv v (by simp)
    have haccv : (addVec acc v).length = acc.length := by
      rw [addVec_length]; omega
    rw [List.foldl_cons,
      ih (addVec acc v) i (fun w hw => by rw [haccv]; exact hv w (by simp [hw])),
      addVec_getD acc v hvlen.symm i]
    simp [add_assoc]

/-- A mapped list sum as a sum over positions. -/
theorem map_sum_eq_range {α : Type} (g : α → ℚ) (dflt : α) (l : List α) :
    (l.map g).sum =
      ((List.range l.length).map (fun t => g (l.getD t dflt))).sum := by
  induction l with
  | nil => rfl
  | cons x xs ih =>
    rw [List.map_cons, List.sum_cons, List.length_cons, List.range_succ_eq_map,
      List.map_cons, List.sum_cons]
    simp only [List.getD_cons_zero, List.map_map]
    congr 1

/-- Position access of `zipWith` within both bounds. -/
theorem getD_zipWith {α β γ : Type} (f : α → β → γ) (a : List α) :
    ∀ (b : List β) (t : ℕ), t < a.length → t < b.length →
      ∀ (da : α) (db : β) (dg : γ),
      (List.zipWith f a b).getD t dg = f (a.getD t da) (b.getD t db) := by
  induction a with
  | nil => intro b t ht; simp at ht
  | cons x xs ih =>
    intro b t ht hb da db dg
    cases b with
    | nil => simp at hb
    | cons y ys =>
      cases t with
      | zero => simp
      | succ j =>
        simp only [List.zipWith_cons_cons, List.getD_cons_succ]
        exact ih ys j (by simpa using ht) (by simpa using hb) da db dg

/-- Position access of `dropLast` before the removed column. -/
theorem getD_dropLast {α : Type} (l : List α) (t : ℕ) (ht : t < l.length - 1)
    (dflt : α) : l.dropLast.getD t dflt = l.getD t dflt := by
  have h1 : t < l.dropLast.length := by rw [List.length_dropLast]; omega
  have h2 : t < l.length := by omega
  rw [List.getD_eq_getElem _ _ h1, List.getD_eq_getElem _ _ h2]
  exact List.getElem_dropLast l t h1

/-- Component access of a scalar-scaled vector within bounds. -/
theorem getD_map_mul (v : List ℚ) (c : ℚ) (i : ℕ) (hi : i < v.length) :
    (v.map (fun x => x * c)).getD i 0 = v.getD i 0 * c := by
  rw [List.getD_eq_getElem _ _ (by simpa using hi), List.getD_eq_getElem _ _ hi]
  exact List.getElem_map _

/-- The pooled result for one row, as the spec words it: for each of the
`embed_dim` components, the sum over the remaining positions (all but the
batch's last column) of mask times hidden value, divided by the summed mask
weight clamped below at `1e-9`. -/
def specMaskedMean (d : ℕ) (h : List (List ℚ)) (m : List ℕ) : List ℚ :=
  (List.range d).map (fun i =>
    ((List.range (h.length - 1)).map
      (fun t => (Nat.cast (m.getD t 0) : ℚ) * (h.getD t []).getD i 0)).sum /
    max ((List.range (h.length - 1)).map
      (fun t => (Nat.cast (m.getD t 0) : ℚ))).sum eps)

/-- The clamped-mask denominator as a sum over positions. -/
theorem clampedMaskSum_eq_range (m : List ℕ) (n : ℕ) (hn : m.length - 1 = n) :
    clampedMaskSum m =
      max ((List.range n).map (fun t => (Nat.cast (m.getD t 0) : ℚ))).sum eps := by
  subst hn
  unfold clampedMaskSum
  congr 1
  rw [map_sum_eq_range (fun mv => (Nat.cast mv : ℚ)) 0 m.dropLast,
    List.length_dropLast]
  apply congrArg
  apply List.map_congr_left
  intro t ht
  rw [List.mem_range] at ht
  rw [getD_dropLast m t ht 0]

/-- One pooled row computes the spec's masked mean and has width `d`. -/
theorem pooledRow_spec (d : ℕ) (h : List (List ℚ)) (m : List ℕ)
    (hlen : m.length = h.length) (hrow : ∀ v ∈ h, v.length = d) :
    pooledRow d h m = specMaskedMean d h m ∧ (pooledRow d h m).length = d := by
  have hne_len : h.dropLast.length = h.length - 1 := List.length_dropLast h
  have mne_len : m.dropLast.length = h.length - 1 := by
    rw [List.length_dropLast, hlen]
  have hrow_ne : ∀ t, t < h.length - 1 → (h.getD t []).length = d := by
    intro t ht
    have ht2 : t < h.length := by omega
    rw [List.getD_eq_getElem _ _ ht2]
    exact hrow _ (List.getElem_mem ht2)
  have masked_len : (maskedEmb h m).length = h.length - 1 := by
    unfold maskedEmb
    rw [List.length_zipWith, hne_len, mne_len, min_self]
  have masked_mem : ∀ w ∈ maskedEmb h m,
      w.length = (List.replicate d (0 : ℚ)).length := by
    intro w hw
    rw [List.length_replicate]
    rw [List.mem_iff_getElem] at hw
    obtain ⟨i, hi, hwi⟩ := hw
    rw [masked_len] at hi
    have hi1 : i < h.dropLast.length := by omega
    rw [← hwi]
    unfold maskedEmb
    rw [List.getElem_zipWith, List.length_map]
    exact hrow _ ((List.dropLast_sublist h).subset (List.getElem_mem hi1))
  have summed_len : (summedRow d h m).length = d := by
    unfold summedRow
    rw [foldl_addVec_length _ _ masked_mem, List.length_replicate]
  have hlen_goal : (pooledRow d h m).length = d := by
    unfold pooledRow
    rw [List.length_map]
    exact summed_len
  refine ⟨?_, hlen_goal⟩
  have hnum : ∀ i, i < d → (summedRow d h m).getD i 0 =
      ((List.range (h.length - 1)).map
        (fun t => (Nat.cast (m.getD t 0) : ℚ) * (h.getD t []).getD i 0)).sum := by
    intro i hid
    unfold summedRow
    rw [foldl_addVec_getD _ _ i masked_mem]
    have hrep : (List.replicate d (0 : ℚ)).getD i 0 = 0 := by
      rw [List.getD_eq_getElem _ _ (by rw [List.length_replicate]; exact hid)]
      simp
    rw [hrep, zero_add,
      map_sum_eq_range (fun v => v.getD i 0) ([] : List ℚ) (maskedEmb h m),
      masked_len]
    apply congrArg
    apply List.map_congr_left
    intro t ht
    rw [List.mem_range] at ht
    have ht1 : t < h.dropLast.length := by omega
    have ht2 : t < m.dropLast.length := by omega
    show ((maskedEmb h m).getD t []).getD i 0 = _
    unfold maskedEmb
    rw [getD_zipWith _ h.dropLast m.dropLast t ht1 ht2 [] 0 []]
    rw [getD_dropLast h t (by omega) [], getD_dropLast m t (by omega) 0]
    rw [getD_map_mul _ _ i (by rw [hrow_ne t ht]; exact hid)]
    exact mul_comm _ _
  apply List.ext_getElem
  · rw [hlen_goal]
    unfold specMaskedMean
    rw [List.length_map, List.length_range]
  · intro i hi1 hi2
    have hid : i < d := by rw [hlen_goal] at hi1; exact hi1
    unfold pooledRow specMaskedMean
    rw [List.getElem_map, List.getElem_map, List.getElem_range]
    rw [← List.getD_eq_getElem (summedRow d h m) 0
      (by rw [summed_len]; exact hid)]
    rw [hnum i hid, clampedMaskSum_eq_range m (h.length - 1) (by omega)]

/-- C4: in pooled mode every batch row is reduced by dropping the last
position column (the same trailing column for hidden states and mask) and
taking the masked mean — the mask-weighted positionwise sum divided by the
mask's summed weight clamped below at `1e-9` — and every resulting vector
has length `embed_dim`. -/
theorem c4_pooled_masked_mean (d : ℕ) (hid : List (List (List ℚ)))
    (mask : List (List ℕ))
    (hrows : ∀ pr ∈ hid.zip mask, pr.2.length = pr.1.length ∧
      ∀ v ∈ pr.1, v.length = d) :
    meanPooledBatch d hid mask =
      (hid.zip mask).map (fun pr => specMaskedMean d pr.1 pr.2) ∧
    ∀ v ∈ meanPooledBatch d hid mask, v.length = d := by
  have hmap : ∀ pr ∈ hid.zip mask,
      pooledRow d pr.1 pr.2 = specMaskedMean d pr.1 pr.2 ∧
        (pooledRow d pr.1 pr.2).length = d :=
    fun pr hpr => pooledRow_spec d pr.1 pr.2 (hrows pr hpr).1 (hrows pr hpr).2
  constructor
  · unfold meanPooledBatch
    apply List.map_congr_left
    intro pr hpr
    exact (hmap pr hpr).1
  · intro v hv
    unfold meanPooledBatch at hv
    rw [List.mem_map] at hv
    obtain ⟨pr, hpr, hveq⟩ := hv
    rw [← hveq]
    exact (hmap pr hpr).2

/-- Witness for C4: a one-row batch of three positions and width 2; the
last position is dropped and the two masked positions average to `[2, 3]`
as the spec formula states. -/
theorem c4_pooled_masked_mean_witness :
    meanPooledBatch 2 [[[1, 2], [3, 4], [5, 6]]] [[1, 1, 1]] =
      ([[[1, 2], [3, 4], [5, 6]]].zip [[1, 1, 1]]).map
        (fun pr => specMaskedMean 2 pr.1 pr.2) ∧
    ∀ v ∈ meanPooledBatch 2 [[[1, 2], [3, 4], [5, 6]]] [[1, 1, 1]],
      v.length = 2 :=
  c4_pooled_masked_mean 2 [[[1, 2], [3, 4], [5, 6]]] [[1, 1, 1]] (by decide)

/-- C5: in per-token mode a row's true length is its attention-mask sum
minus one (dropping the end-of-sequence marker), the yielded matrix is the
first `true_length` rows of the row's hidden-state matrix, and it has
exactly `true_length` rows. -/
theorem c5_per_token_rows (h : List (List ℚ)) (m : List ℕ)
    (hlen : m.length = h.length) (hbin : ∀ x ∈ m, x ≤ 1)
    (hpos : 1 ≤ m.sum) :
    perTokenRow h m = h.take (m.sum - 1) ∧
      (perTokenRow h m).length = m.sum - 1 := by
  have hsum_le : m.sum ≤ h.length := by
    have hb := List.sum_le_card_nsmul m 1 hbin
    simp only [smul_eq_mul, mul_one] at hb
    omega
  have heq : perTokenRow h m = h.take (m.sum - 1) := by
    unfold perTokenRow pySliceTo
    rw [if_pos (by omega : (0 : Int) ≤ (m.sum : ℕ) - 1)]
    congr 1
    omega
  refine ⟨heq, ?_⟩
  rw [heq, List.length_take]
  omega

/-- Witness for C5: mask `[1, 1, 0]` sums to 2, so exactly one row (the
first) of the three-row hidden matrix is yielded. -/
theorem c5_per_token_rows_witness :
    perTokenRow [[1], [2], [3]] [1, 1, 0] = [[1]] ∧
      (perTokenRow [[1], [2], [3]] [1, 1, 0]).length = 2 - 1 :=
  c5_per_token_rows [[1], [2], [3]] [1, 1, 0] (by decide) (by decide)
    (by decide)

/-- C10: a row attending only to its end-of-sequence marker (mask sum 1)
yields a matrix with zero rows rather than failing, and in general the
yielded matrix never reaches the row's end-of-sequence position (the last
1-valued mask index `e`): its row count is at most `e`. -/
theorem c10_eos_row_excluded :
    (∀ (h : List (List ℚ)) (m : List ℕ), m.sum = 1 → perTokenRow h m = []) ∧
    (∀ (h : List (List ℚ)) (m : List ℕ) (e : ℕ),
      (∀ x ∈ m, x ≤ 1) → m.getD e 0 = 1 → (∀ i, e < i → m.getD i 0 = 0) →
      (perTokenRow h m).length ≤ e) := by
  constructor
  · intro h m hsum
    unfold perTokenRow pySliceTo
    rw [hsum]
    norm_num
  · intro h m e hbin hlast hafter
    have hel : e < m.length := by
      by_contra hge
      push_neg at hge
      rw [List.getD_eq_default _ _ hge] at hlast
      exact absurd hlast (by norm_num)
    have hsum_le : m.sum ≤ e + 1 := by
      have hsplit : (m.take (e + 1)).sum + (m.drop (e + 1)).sum = m.sum := by
        rw [← List.sum_append, List.take_append_drop]
      have hdrop : (m.drop (e + 1)).sum = 0 := by
        apply List.sum_eq_zero
        intro x hx
        rw [List.mem_iff_getElem] at hx
        obtain ⟨j, hj, hxj⟩ := hx
        have hj2 : e + 1 + j < m.length := by
          rw [List.length_drop] at hj
          omega
        rw [← hxj, List.getElem_drop, ← List.getD_eq_getElem m 0 hj2]
        exact hafter (e + 1 + j) (by omega)
      have htake : (m.take (e + 1)).sum ≤ e + 1 := by
        have hb := List.sum_le_card_nsmul (m.take (e + 1)) 1
          (fun x hx => hbin x (List.mem_of_mem_take hx))
        simp only [smul_eq_mul, mul_one, List.length_take] at hb
        omega
      omega
    unfold perTokenRow pySliceTo
    have hone : 1 ≤ m.sum := by
      have hmem : m.getD e 0 ∈ m := by
        rw [List.getD_eq_getElem _ _ hel]
        exact List.getElem_mem hel
      calc 1 = m.getD e 0 := hlast.symm
        _ ≤ m.sum := List.le_sum_of_mem hmem
    rw [if_pos (by omega : (0 : Int) ≤ (m.sum : ℕ) - 1)]
    rw [List.length_take]
    omega

/-- Witness for C10: an empty-sequence row (mask `[1]`, only the marker)
yields zero rows, and with mask `[1, 1, 0]` (marker at index 1) the yield
stops before index 1. -/
theorem c10_eos_row_excluded_witness :
    perTokenRow [[7], [8]] [1] = [] ∧
      (perTokenRow [[1], [2], [3]] [1, 1, 0]).length ≤ 1 := by
  constructor
  · exact c10_eos_row_excluded.1 [[7], [8]] [1] (by decide)
  · exact c10_eos_row_excluded.2 [[1], [2], [3]] [1, 1, 0] 1 (by decide)
      (by decide)
      (by
        intro i hi
        rcases i with _ | _ | n
        · omega
        · omega
        · rcases n with _ | k
          · rfl
          · simp [List.getD_cons_succ, List.getD_nil])

/-- The per-batch yields carry exactly the batch's sequences as keys, in
order, when the forward pass returns one hidden row and one mask row per
sequence. -/
theorem extractBatch_fst (pooled : Bool) (d : ℕ) (b : List String)
    (hid : List (List (List ℚ))) (mask : List (List ℕ))
    (hh : b.length ≤ hid.length) (hm : b.length ≤ mask.length) :
    (extractBatch pooled d b hid mask).map Prod.fst = b := by
  cases pooled with
  | true =>
    unfold extractBatch
    rw [if_pos rfl, List.map_map]
    have hcomp : (Prod.fst ∘ fun p : String × List ℚ =>
        ((p.1, Sum.inl p.2) : String × EmbRes)) = Prod.fst := rfl
    rw [hcomp]
    apply List.map_fst_zip
    unfold meanPooledBatch
    rw [List.length_map, List.length_zip]
    omega
  | false =>
    unfold extractBatch
    rw [if_neg (by simp), List.map_map]
    have hcomp : (Prod.fst ∘
        fun p : String × (List (List ℚ) × List ℕ) =>
          ((p.1, Sum.inr (perTokenRow p.2.1 p.2.2)) : String × EmbRes)) =
        Prod.fst := rfl
    rw [hcomp]
    apply List.map_fst_zip
    rw [List.length_zip]
    omega

/-- The batch loop yields the input sequences in order as keys: the inputs
are cut into `take`/`drop` chunks of `bs` and each chunk contributes its own
sequences (fuel-indexed induction on the input length). -/
theorem genLoop_fst (run : List String → List (List (List ℚ)) × List (List ℕ))
    (pooled : Bool) (d bs : ℕ) (hbs : bs ≠ 0)
    (hrun : ∀ b, (run b).1.length = b.length ∧ (run b).2.length = b.length) :
    ∀ (n : ℕ) (seqs : List String), seqs.length ≤ n →
      (genLoop run pooled d bs seqs).map Prod.fst = seqs := by
  intro n
  induction n with
  | zero =>
    intro seqs hlen
    have hnil : seqs = [] := List.eq_nil_of_length_eq_zero (by omega)
    subst hnil
    rw [genLoop]
    simp
  | succ n ih =>
    intro seqs hlen
    by_cases hs : seqs = []
    · subst hs
      rw [genLoop]
      simp
    · have hlpos : 0 < seqs.length := List.length_pos.mpr hs
      rw [genLoop, dif_neg (by push_neg; exact ⟨hbs, hs⟩)]
      rw [List.map_append]
      rw [extractBatch_fst pooled d (seqs.take bs) _ _
        (le_of_eq (hrun (seqs.take bs)).1.symm)
        (le_of_eq (hrun (seqs.take bs)).2.symm)]
      rw [ih (seqs.drop bs) (by rw [List.length_drop]; omega)]
      exact List.take_append_drop bs seqs

/-- C8: when inference, construction and weight loading succeed and the
encoder returns one hidden row and one mask row per sequence, the entry
point yields exactly one `(sequence, embedding)` pair per input sequence,
in input order, over `take`/`drop` batches of `bs` (the last possibly
smaller) — for every input length, divisible by `bs` or not. -/
theorem c8_one_result_per_sequence {Enc : Type}
    (ckpt : Except LoadErr ParamTable)
    (construct : ℕ × ℕ × ℕ → Except ConstructErr Enc)
    (loadWeights : Enc → ParamTable → Except LoadErr Enc)
    (run : Enc → List String → List (List (List ℚ)) × List (List ℕ))
    (pooled : Bool) (d bs : ℕ) (seqs : List String)
    (arch : ℕ × ℕ × ℕ) (enc enc2 : Enc) (hbs : bs ≠ 0)
    (h1 : inspectPath ckpt = .ok arch)
    (h2 : construct arch = .ok enc)
    (h3 : ckpt.bind (fun table => loadWeights enc table) = .ok enc2)
    (hrun : ∀ b, (run enc2 b).1.length = b.length ∧
      (run enc2 b).2.length = b.length) :
    Except.map (fun l => l.map Prod.fst)
      (load_and_generate_embeddings ckpt construct loadWeights run
        pooled d bs seqs) = .ok seqs := by
  unfold load_and_generate_embeddings
  rw [h1]
  simp only [h2, h3, Except.map]
  rw [genLoop_fst (run enc2) pooled d bs hbs hrun seqs.length seqs le_rfl]

/-- Witness for C8: five sequences in batches of two (so the last batch has
one element) come back as keys in the original order. -/
theorem c8_one_result_per_sequence_witness :
    Except.map (fun l => l.map Prod.fst)
      (@load_and_generate_embeddings Unit
        (Except.ok
          [("embeddings.tok_embeddings.weight", [33, 768]),
           ("model.layers.0.attn.Wqkv.weight", [2304, 768])])
        (fun _ => Except.ok ())
        (fun enc _ => Except.ok enc)
        (fun _ b => (b.map (fun _ => []), b.map (fun _ => [])))
        true 768 2 ["AA", "B", "CCC", "D", "EE"]) =
      .ok ["AA", "B", "CCC", "D", "EE"] :=
  c8_one_result_per_sequence
    (Except.ok
      [("embeddings.tok_embeddings.weight", [33, 768]),
       ("model.layers.0.attn.Wqkv.weight", [2304, 768])])
    (fun _ => Except.ok ())
    (fun enc _ => Except.ok enc)
    (fun _ b => (b.map (fun _ => []), b.map (fun _ => [])))
    true 768 2 ["AA", "B", "CCC", "D", "EE"]
    (768, 1, 12) () () (by decide) rfl rfl rfl
    (fun b => by constructor <;> rw [List.length_map])
